import Mathlib

/-!
Formal model of the `pimx_bot` proxy-scanning pipeline: the config parser
(`pimx_bot/parser.py`), the connectivity prober (`pimx_bot/server_tester.py`),
the store operations (`pimx_bot/db.py`) and the scan orchestrator
(`pimx_bot/scanner.py`).  Python functions are embedded as total Lean
functions; Python code that can raise is embedded in `Except PyErr`;
calls into the Python standard library (base64, `json.loads`, `unquote`)
are abstracted as explicit function parameters gathered in `PyLibs`,
while the library routines whose behaviour the repository's control flow
depends on (`urllib.parse.urlsplit`'s component splitting, the `hostname`
and `port` properties, `parse_qs`, `int(...)`) are embedded concretely.
Timestamps (`CURRENT_TIMESTAMP` strings in the `%Y-%m-%d %H:%M:%S` format,
whose lexicographic order agrees with chronological order) are modelled
as natural numbers.
-/

namespace PimxBot

/-- Exceptions that the embedded Python code can raise. -/
inductive PyErr where
  | valueError
  | attributeError
deriving DecidableEq, Repr

/-- Model of the Python values produced by `json.loads`: `None`, booleans,
integers, strings, lists and string-keyed dictionaries.  (Float literals,
which the parser never meaningfully consumes, are not modelled.) -/
inductive PyVal where
  | null
  | bool (b : Bool)
  | int (n : Int)
  | str (s : String)
  | list (xs : List PyVal)
  | dict (kvs : List (String × PyVal))
deriving Repr

/-- Python truthiness: `None`, `False`, `0`, `""`, `[]` and `\x7b\x7d` are falsy. -/
def pyTruthy : PyVal → Bool
  | .null => false
  | .bool b => b
  | .int n => n != 0
  | .str s => s != ""
  | .list xs => !xs.isEmpty
  | .dict kvs => !kvs.isEmpty

/-- Python `x or y` on `PyVal`s. -/
def pyOr (a b : PyVal) : PyVal := if pyTruthy a then a else b

/-- A single-quote character, kept out of string literals. -/
def squoteChar : Char := Char.ofNat 39

/-- A double-quote character. -/
def dquoteChar : Char := Char.ofNat 34

/-- Python `repr` of a string: single-quoted unless the string contains a
single quote and no double quote. -/
def pyReprStr (s : String) : String :=
  let q := if s.contains squoteChar && !s.contains dquoteChar then dquoteChar else squoteChar
  String.singleton q ++ s ++ String.singleton q

mutual

/-- Python `repr` of a value (used by `str` on containers). -/
def pyRepr : PyVal → String
  | .null => "None"
  | .bool true => "True"
  | .bool false => "False"
  | .int n => toString n
  | .str s => pyReprStr s
  | .list xs => "[" ++ pyReprList xs ++ "]"
  | .dict kvs => "\x7b" ++ pyReprDict kvs ++ "\x7d"

/-- Comma-joined `repr`s of the elements of a list. -/
def pyReprList : List PyVal → String
  | [] => ""
  | [x] => pyRepr x
  | x :: y :: rest => pyRepr x ++ ", " ++ pyReprList (y :: rest)

/-- Comma-joined `repr`s of the entries of a dictionary. -/
def pyReprDict : List (String × PyVal) → String
  | [] => ""
  | [kv] => pyReprStr kv.1 ++ ": " ++ pyRepr kv.2
  | kv :: kv2 :: rest => pyReprStr kv.1 ++ ": " ++ pyRepr kv.2 ++ ", " ++ pyReprDict (kv2 :: rest)

end

/-- Python `str(...)` of a value. -/
def pyStr : PyVal → String
  | .str s => s
  | v => pyRepr v

/-- Python `data.get(key)`: raises `AttributeError` when `data` is not a
dictionary, returns `None` for a missing key. -/
def pyDictGet (data : PyVal) (key : String) : Except PyErr PyVal :=
  match data with
  | .dict kvs =>
    match kvs.find? (fun kv => kv.1 == key) with
    | some kv => .ok kv.2
    | none => .ok .null
  | _ => .error .attributeError

/-- ASCII whitespace in the sense of `str.split()` / `str.strip()`. -/
def pyIsSpace (c : Char) : Bool :=
  c == ' ' || c == '\t' || c == '\n' || c == '\r' || c == Char.ofNat 11 || c == Char.ofNat 12

/-- Python `str.strip()` (for the ASCII inputs the scanner handles). -/
def pyStrip (s : String) : String :=
  String.mk (((s.toList.dropWhile pyIsSpace).reverse.dropWhile pyIsSpace).reverse)

/-- Split a character list at every occurrence of the character `sep`
(Python `str.split(sep)`, keeping empty pieces). -/
def splitChar (sep : Char) : List Char → List (List Char)
  | [] => [[]]
  | c :: rest =>
    if c = sep then [] :: splitChar sep rest
    else
      match splitChar sep rest with
      | [] => [[c]]
      | g :: gs => (c :: g) :: gs

/-- Split a character list at whitespace runs (helper of `pySplitWs`). -/
def wsSplitGo (cur : List Char) : List Char → List (List Char)
  | [] => [cur.reverse]
  | c :: rest =>
    if pyIsSpace c then cur.reverse :: wsSplitGo [] rest
    else wsSplitGo (c :: cur) rest

/-- Python `str.split()`: split on whitespace runs, discarding empty pieces. -/
def pySplitWs (s : String) : List String :=
  ((wsSplitGo [] s.toList).map (fun cs => String.mk cs)).filter (fun t => t != "")

/-- Whether `pat` occurs inside `cs` as a contiguous run. -/
def listHasSub (pat : List Char) : List Char → Bool
  | [] => pat.isEmpty
  | c :: rest => pat.isPrefixOf (c :: rest) || listHasSub pat rest

/-- Whether `sub` occurs inside `s` (Python `sub in s` for non-empty `sub`). -/
def strContains (s sub : String) : Bool :=
  listHasSub sub.toList s.toList

/-- Digit run of a Python integer literal after the sign: digits with single
underscores allowed between digits. Returns the accumulated value. -/
def pyDigitsGo (acc : Nat) : List Char → Option Nat
  | [] => some acc
  | '_' :: c :: rest =>
    if c.isDigit then pyDigitsGo (acc * 10 + (c.toNat - 48)) rest else none
  | c :: rest =>
    if c.isDigit then pyDigitsGo (acc * 10 + (c.toNat - 48)) rest else none

/-- Value of a non-empty digit run (with embedded underscores) or `none`. -/
def pyDigits : List Char → Option Nat
  | [] => none
  | c :: rest => if c.isDigit then pyDigitsGo (c.toNat - 48) rest else none

/-- Python `int(s)` / `int(s, 10)` on a string: optional surrounding
whitespace, optional sign, then a digit run; anything else raises
`ValueError` (modelled as `none`). -/
def pyIntOfString (s : String) : Option Int :=
  match (pyStrip s).toList with
  | '+' :: rest => (pyDigits rest).map Int.ofNat
  | '-' :: rest => (pyDigits rest).map (fun n => -(Int.ofNat n))
  | rest => (pyDigits rest).map Int.ofNat

end PimxBot

namespace PimxBot

/-- Parsed candidate endpoint, mirroring `parser.ParsedConfig`. -/
structure ParsedConfig where
  original_string : String
  protocol : String
  transport : String
  ps : String
  add : String
  port : Int
  host : String
  path : String
  tls : String
  source_id : Option Int
deriving DecidableEq, Repr

/-- The Python standard-library routines the parser calls, abstracted as
total functions.  `b64decode` is `base64.urlsafe_b64decode` composed with
`bytes.decode("utf-8", errors="ignore")`, with `none` standing for a raised
`binascii.Error`; `jsonLoads` is `json.loads` with `none` standing for any
raised exception; `unquote` is `urllib.parse.unquote` restricted to its
(total) behaviour. -/
structure PyLibs where
  b64decode : String → Option String
  jsonLoads : String → Option PyVal
  unquote : String → String

/-- Embedding of `parser._safe_b64decode`: strip, pad to a multiple of four
with `=`, decode; any exception yields the empty string. -/
def safe_b64decode (L : PyLibs) (value : String) : String :=
  let v := pyStrip value
  let padded := v ++ String.mk (List.replicate ((4 - v.length % 4) % 4) '=')
  (L.b64decode padded).getD ""

/-- Embedding of `parser._parse_vmess`.  The `try` block covers only
`json.loads`; the `int(...)` conversion of the port is outside it and
raises `ValueError` on a non-numeric port, and `data.get` raises
`AttributeError` when the decoded JSON document is not an object. -/
def parse_vmess (L : PyLibs) (line : String) (source_id : Option Int) :
    Except PyErr (Option ParsedConfig) := do
  let b64 := String.mk (line.toList.drop ("vmess://".toList.length))
  let payload := safe_b64decode L b64
  if payload = "" then
    return none
  match L.jsonLoads payload with
  | none => return none
  | some data =>
    let addV ← pyDictGet data "add"
    let add := pyStrip (pyStr (pyOr addV (.str "")))
    let portV ← pyDictGet data "port"
    let portS := pyStr (pyOr portV (.str "0"))
    let portS := if portS = "" then "0" else portS
    match pyIntOfString portS with
    | none => .error .valueError
    | some port =>
      if add = "" ∨ add = "unknown" ∨ port ≤ 0 ∨ port ≥ 65536 then
        return none
      else
        let netV ← pyDictGet data "net"
        let psV ← pyDictGet data "ps"
        let hostV ← pyDictGet data "host"
        let pathV ← pyDictGet data "path"
        let tlsV ← pyDictGet data "tls"
        return some
          { original_string := line
            protocol := "vmess"
            transport := pyStr (pyOr netV (.str "tcp"))
            ps := pyStr (pyOr psV (.str "vmess-node"))
            add := add
            port := port
            host := pyStr (pyOr hostV (.str ""))
            path := pyStr (pyOr pathV (.str ""))
            tls := pyStr (pyOr tlsV (.str ""))
            source_id := source_id }

/-- Result of `urllib.parse.urlsplit`: the five URL components. -/
structure UrlParts where
  scheme : String
  netloc : String
  pathPart : String
  query : String
  fragment : String
deriving DecidableEq, Repr

/-- Split a character list at the first occurrence of `sep`:
`(before, none)` when `sep` is absent, `(before, some after)` otherwise
(Python `str.partition`). -/
def partitionChar (sep : Char) (cs : List Char) : List Char × Option (List Char) :=
  match cs with
  | [] => ([], none)
  | c :: rest =>
    if c = sep then ([], some rest)
    else
      let (pre, post) := partitionChar sep rest
      (c :: pre, post)

/-- Characters allowed in a URL scheme after the leading letter. -/
def isSchemeChar (c : Char) : Bool :=
  c.isAlphanum || c == '+' || c == '-' || c == '.'

/-- Index of the end of the netloc: the first `/`, `?` or `#`
(`urllib.parse._splitnetloc`). -/
def netlocSpan (cs : List Char) : List Char × List Char :=
  match cs with
  | [] => ([], [])
  | c :: rest =>
    if c = '/' ∨ c = '?' ∨ c = '#' then ([], c :: rest)
    else
      let (pre, post) := netlocSpan rest
      (c :: pre, post)

/-- Embedding of `urllib.parse.urlsplit` for the ASCII URLs the scanner
feeds it: remove tab/CR/LF, split off `scheme:`, `//netloc`, `#fragment`
and `?query`.  `none` models the `ValueError` raised for an unbalanced
IPv6 bracket, which the caller catches. -/
def urlsplitImpl (url : String) : Option UrlParts :=
  let cs := url.toList.filter (fun c => c ≠ '\t' ∧ c ≠ '\r' ∧ c ≠ '\n')
  let (scheme, rest) :=
    match partitionChar ':' cs with
    | (pre, some post) =>
      if (match pre with | c :: cs2 => c.isAlpha && cs2.all isSchemeChar | [] => false) then
        (String.mk (pre.map Char.toLower), post)
      else ("", cs)
    | (_, none) => ("", cs)
  let (netloc, rest) :=
    match rest with
    | '/' :: '/' :: tail => netlocSpan tail
    | _ => ([], rest)
  if (netloc.contains '[' ∧ ¬ netloc.contains ']') ∨
     (netloc.contains ']' ∧ ¬ netloc.contains '[') then
    none
  else
    let (rest, fragment) :=
      match partitionChar '#' rest with
      | (pre, some post) => (pre, post)
      | (pre, none) => (pre, [])
    let (rest, query) :=
      match partitionChar '?' rest with
      | (pre, some post) => (pre, post)
      | (pre, none) => (pre, [])
    some
      { scheme := scheme
        netloc := String.mk netloc
        pathPart := String.mk rest
        query := String.mk query
        fragment := String.mk fragment }

/-- Host and raw port text of a netloc (`urllib.parse`'s `_hostinfo`):
drop userinfo up to the last `@`, handle a bracketed IPv6 host, split the
port off at the first `:`; an empty port becomes `none`. -/
def urlHostinfo (netloc : String) : String × Option String :=
  let cs := (netloc.toList.reverse.takeWhile (fun c => c ≠ '@')).reverse
  let (host, rawPort) :=
    match partitionChar '[' cs with
    | (_, some bracketed) =>
      match partitionChar ']' bracketed with
      | (h, some afterBr) =>
        (h, (partitionChar ':' afterBr).2.map id)
      | (h, none) => (h, none)
    | (_, none) =>
      match partitionChar ':' cs with
      | (h, some p) => (h, some p)
      | (h, none) => (h, none)
  let port :=
    match rawPort with
    | some [] => none
    | other => other
  (String.mk host, port.map String.mk)

/-- The `hostname` property of a split URL: the lowercased host, or `none`
when it is empty. -/
def urlHostname (u : UrlParts) : Option String :=
  let h := (urlHostinfo u.netloc).1
  if h = "" then none else some (String.mk (h.toList.map Char.toLower))

/-- The `port` property of a split URL: `int(port, 10)` restricted to
`0 ≤ port ≤ 65535`, raising `ValueError` otherwise. -/
def urlPortProp (u : UrlParts) : Except PyErr (Option Int) :=
  match (urlHostinfo u.netloc).2 with
  | none => .ok none
  | some p =>
    match pyIntOfString p with
    | none => .error .valueError
    | some n => if 0 ≤ n ∧ n ≤ 65535 then .ok (some n) else .error .valueError

end PimxBot

namespace PimxBot

/-- Replace `+` by a space (the first step of `unquote_plus`). -/
def plusToSpace (s : String) : String :=
  String.mk (s.toList.map (fun c => if c = '+' then ' ' else c))

/-- Embedding of `urllib.parse.parse_qs` flattened to an ordered list of
key/value pairs (`parse_qsl` with the default arguments): split on `&`,
skip empty segments, segments without `=` and segments with an empty
value, then `unquote_plus` both sides. -/
def parse_qsl (L : PyLibs) (qs : String) : List (String × String) :=
  (splitChar '&' qs.toList).filterMap (fun nv =>
    if nv.isEmpty then none
    else
      match partitionChar '=' nv with
      | (_, none) => none
      | (namePart, some valPart) =>
        if valPart.isEmpty then none
        else some (L.unquote (plusToSpace (String.mk namePart)),
                   L.unquote (plusToSpace (String.mk valPart))))

/-- First value stored for `key` (`qs.get(key, [None])[0]`). -/
def qsFirst (pairs : List (String × String)) (key : String) : Option String :=
  (pairs.find? (fun p => p.1 == key)).map (fun p => p.2)

/-- Python `x or y` where `x` is `str | None` (empty strings are falsy). -/
def pyOrOS (a b : Option String) : Option String :=
  match a with
  | some s => if s = "" then b else some s
  | none => b

/-- Python `x or d` collapsing a `str | None` into a default string. -/
def pyOrOSD (a : Option String) (d : String) : String :=
  match a with
  | some s => if s = "" then d else s
  | none => d

/-- Embedding of `parser._parse_url_config` (the `vless://` / `trojan://`
route).  The `try` block covers only `urlparse` itself; the `parsed.port`
property is read outside it and raises `ValueError` for a non-numeric or
out-of-range port. -/
def parse_url_config (L : PyLibs) (line : String) (protocol : String)
    (default_port : Int) (source_id : Option Int) :
    Except PyErr (Option ParsedConfig) :=
  match urlsplitImpl line with
  | none => .ok none
  | some parsed =>
    let hostname := pyStrip ((urlHostname parsed).getD "")
    if hostname = "" ∨ hostname = "unknown" then .ok none
    else do
      let portO ← urlPortProp parsed
      let port :=
        match portO with
        | some p => if p = 0 then default_port else p
        | none => default_port
      let qs := parse_qsl L parsed.query
      let transport := pyStrip (pyOrOSD (pyOrOS (qsFirst qs "type") (qsFirst qs "net")) "tcp")
      let tls := pyStrip (pyOrOSD (qsFirst qs "security") "")
      let host := pyStrip (pyOrOSD (pyOrOS (qsFirst qs "host") (qsFirst qs "sni")) "")
      let path := pyStrip (pyOrOSD (pyOrOS (qsFirst qs "path") (qsFirst qs "serviceName")) "")
      let name0 := if parsed.fragment ≠ "" then L.unquote parsed.fragment else ""
      let name := if name0 = "" then protocol ++ "-node" else name0
      return some
        { original_string := line
          protocol := protocol
          transport := transport
          ps := name
          add := hostname
          port := port
          host := host
          path := path
          tls := tls
          source_id := source_id }

/-- Dispatch of one whitespace-separated token on its scheme prefix;
unrecognized prefixes are ignored. -/
def parseToken (L : PyLibs) (source_id : Option Int) (line : String) :
    Except PyErr (Option ParsedConfig) :=
  if ("vmess://".toList).isPrefixOf line.toList then parse_vmess L line source_id
  else if ("vless://".toList).isPrefixOf line.toList then
    parse_url_config L line "vless" 443 source_id
  else if ("trojan://".toList).isPrefixOf line.toList then
    parse_url_config L line "trojan" 443 source_id
  else .ok none

/-- The token loop of `parse_server_configs`: strip each token, skip empty
ones, collect the successfully parsed candidates in order; an exception in
any token aborts the whole loop (there is no handler around it). -/
def parseTokens (L : PyLibs) (source_id : Option Int) :
    List String → Except PyErr (List ParsedConfig)
  | [] => .ok []
  | t :: rest => do
    let t := pyStrip t
    if t = "" then
      parseTokens L source_id rest
    else
      let c ← parseToken L source_id t
      let others ← parseTokens L source_id rest
      match c with
      | some cfg => .ok (cfg :: others)
      | none => .ok others

/-- De-duplication by exact `original_string`, first occurrence wins,
first-seen order preserved (the `dict.setdefault` loop). -/
def dedupeConfigs (cs : List ParsedConfig) : List ParsedConfig :=
  cs.foldl
    (fun acc c =>
      if acc.any (fun d => d.original_string == c.original_string) then acc
      else acc ++ [c])
    []

/-- Embedding of `parser.parse_server_configs`. -/
def parse_server_configs (L : PyLibs) (content : String) (source_id : Option Int) :
    Except PyErr (List ParsedConfig) :=
  let raw := pyStrip content
  if raw = "" then .ok []
  else
    let raw :=
      if !(strContains raw "://") then
        let decoded := safe_b64decode L raw
        if decoded ≠ "" ∧ strContains decoded "://" then decoded else raw
      else raw
    do
      let cs ← parseTokens L source_id (pySplitWs raw)
      return dedupeConfigs cs

/-- An instantiation of the abstracted standard-library routines: base64
and JSON decoding that never succeed (a legal behaviour of the abstracted
interface) and the identity `unquote` (its behaviour on percent-free
strings).  Used to evaluate the embedded parser on concrete inputs whose
control flow does not reach those routines. -/
def inertLibs : PyLibs :=
  { b64decode := fun _ => none
    jsonLoads := fun _ => none
    unquote := fun s => s }

end PimxBot

namespace PimxBot

/-- Outcome of one network probe attempt, mirroring
`server_tester.ProbeResult`: success flag and measured (or sentinel 999)
latency in whole milliseconds. -/
structure ProbeResult where
  ok : Bool
  latency_ms : Nat
deriving DecidableEq, Repr

/-- Embedding of `server_tester._probe_best_of_two`.  The network
behaviour of the probe coroutine is abstracted as the sequence of results
its successive invocations would produce; the second component counts how
many times the probe was invoked. -/
def probe_best_of_two (probe : Nat → ProbeResult) : ProbeResult × Nat :=
  let first := probe 0
  if first.ok then (first, 1)
  else (probe 1, 2)

/-- The dictionary returned by `server_tester.test_server`. -/
structure TestOutcome where
  latency : Nat
  status : String
  scanned : Bool
  reachable : Bool
deriving DecidableEq, Repr

/-- Embedding of the final classification in `server_tester.test_server`:
run the best-of-two probe, then classify a failure or a latency strictly
above `max_latency_ms` as `timeout`/unreachable and everything else as
`active`/reachable. -/
def test_server (probe : Nat → ProbeResult) (max_latency_ms : Nat) : TestOutcome :=
  let result := (probe_best_of_two probe).1
  if result.ok = false ∨ result.latency_ms > max_latency_ms then
    { latency := result.latency_ms, status := "timeout", scanned := true, reachable := false }
  else
    { latency := result.latency_ms, status := "active", scanned := true, reachable := true }

/-- A row of the `servers` table (`db.init_db`).  The `operators`,
`packet_loss` and `speed` columns, which the scan pipeline only ever
writes as the constants `"\x7b\x7d"`, `0` and `0`, are omitted. -/
structure ServerRow where
  id : Int
  config_string : String
  protocol : String
  transport : Option String
  tls : Option String
  name : String
  address : String
  port : Int
  host : Option String
  path : Option String
  country : Option String
  latency : Option Nat
  status : String
  quality_score : Int
  reachable : Bool
  scanned : Bool
  source_id : Option Int
  is_selected : Bool
  dislikes : Int
  created_at : Nat
  updated_at : Nat
deriving DecidableEq, Repr

/-- The `server` dictionary passed to `db.upsert_server`, with `.get`
fields optional. -/
structure UpsertInput where
  config_string : String
  protocol : String
  transport : Option String
  tls : Option String
  name : Option String
  address : String
  port : Int
  host : Option String
  path : Option String
  country : Option String
  latency : Option Nat
  status : Option String
  quality_score : Option Int
  reachable : Bool
  scanned : Bool
  source_id : Option Int
  is_selected : Bool
deriving DecidableEq, Repr

/-- Python `x or d` where `x` is `int | None` (zero is falsy). -/
def pyOrOID (a : Option Int) (d : Int) : Int :=
  match a with
  | some n => if n = 0 then d else n
  | none => d

/-- The row state written by `db.upsert_server` when the incoming
fingerprint conflicts with the existing row `r`: every mutable field is
overwritten with the (defaulted) incoming value and `updated_at` is set to
the current time, while `id`, `config_string`, `created_at` and `dislikes`
are left as they were. -/
def upsert_update_row (r : ServerRow) (s : UpsertInput) (now : Nat) : ServerRow :=
  { r with
    protocol := s.protocol
    transport := some (pyOrOSD s.transport "tcp")
    tls := some (pyOrOSD s.tls "")
    name := pyOrOSD s.name "Unnamed"
    address := s.address
    port := s.port
    host := some (pyOrOSD s.host s.address)
    path := some (pyOrOSD s.path "/")
    country := some (pyOrOSD s.country "Unknown")
    latency := s.latency
    status := pyOrOSD s.status "pending"
    quality_score := pyOrOID s.quality_score 0
    reachable := s.reachable
    scanned := s.scanned
    source_id := s.source_id
    is_selected := s.is_selected
    updated_at := now }

/-- The fresh row inserted by `db.upsert_server` when no row carries the
incoming fingerprint: `id` from the autoincrement counter, `created_at`
and `updated_at` set to the current time, `dislikes` left at its column
default `0`. -/
def upsert_insert_row (s : UpsertInput) (now : Nat) (newId : Int) : ServerRow :=
  { id := newId
    config_string := s.config_string
    protocol := s.protocol
    transport := some (pyOrOSD s.transport "tcp")
    tls := some (pyOrOSD s.tls "")
    name := pyOrOSD s.name "Unnamed"
    address := s.address
    port := s.port
    host := some (pyOrOSD s.host s.address)
    path := some (pyOrOSD s.path "/")
    country := some (pyOrOSD s.country "Unknown")
    latency := s.latency
    status := pyOrOSD s.status "pending"
    quality_score := pyOrOID s.quality_score 0
    reachable := s.reachable
    scanned := s.scanned
    source_id := s.source_id
    is_selected := s.is_selected
    dislikes := 0
    created_at := now
    updated_at := now }

/-- Embedding of `db.upsert_server`: `INSERT ... ON CONFLICT(config_string)
DO UPDATE` over a table modelled as a list of rows. -/
def upsert_server (table : List ServerRow) (s : UpsertInput) (now : Nat) (newId : Int) :
    List ServerRow :=
  if table.any (fun r => r.config_string == s.config_string) then
    table.map (fun r =>
      if r.config_string = s.config_string then upsert_update_row r s now else r)
  else
    table ++ [upsert_insert_row s now newId]

end PimxBot

namespace PimxBot

/-- Whether a row is counted by `db.count_selected_active`
(`is_selected = 1 AND status = "active"`). -/
def selActive (r : ServerRow) : Bool :=
  r.is_selected && r.status == "active"

/-- Embedding of `db.count_selected_active`. -/
def count_selected_active (table : List ServerRow) : Nat :=
  (table.filter selActive).length

/-- `COALESCE(latency, 99999)`. -/
def latOr (r : ServerRow) : Nat := r.latency.getD 99999

/-- The demotion ordering of `db.manage_selected_servers`:
`ORDER BY COALESCE(latency, 99999) DESC, dislikes DESC, updated_at ASC`
(worst first). -/
def demoteRel (a b : ServerRow) : Prop :=
  latOr b < latOr a ∨
    (latOr a = latOr b ∧
      (b.dislikes < a.dislikes ∨ (a.dislikes = b.dislikes ∧ a.updated_at ≤ b.updated_at)))

instance : DecidableRel demoteRel := fun a b => by
  unfold demoteRel; infer_instance

instance : IsTotal ServerRow demoteRel where
  total a b := by
    unfold demoteRel; omega

instance : IsTrans ServerRow demoteRel where
  trans a b c hab hbc := by
    unfold demoteRel at *; omega

/-- Eligibility filter of the promotion branch:
`is_selected = 0 AND status = "active" AND COALESCE(latency, 99999) < 250`. -/
def promoteEligible (r : ServerRow) : Bool :=
  !r.is_selected && r.status == "active" && latOr r < 250

/-- The promotion ordering of `db.manage_selected_servers`:
`ORDER BY COALESCE(latency, 99999) ASC, dislikes ASC, updated_at DESC`
(best first). -/
def promoteRel (a b : ServerRow) : Prop :=
  latOr a < latOr b ∨
    (latOr a = latOr b ∧
      (a.dislikes < b.dislikes ∨ (a.dislikes = b.dislikes ∧ b.updated_at ≤ a.updated_at)))

instance : DecidableRel promoteRel := fun a b => by
  unfold promoteRel; infer_instance

instance : IsTotal ServerRow promoteRel where
  total a b := by
    unfold promoteRel; omega

instance : IsTrans ServerRow promoteRel where
  trans a b c hab hbc := by
    unfold promoteRel at *; omega

/-- The ids of the `SELECT id ... WHERE is_selected = 1 AND status =
"active" ORDER BY COALESCE(latency, 99999) DESC, dislikes DESC, updated_at
ASC LIMIT k` subquery: the worst `k` currently-selected-active rows. -/
def demoteIds (table : List ServerRow) (k : Nat) : List Int :=
  (((table.filter selActive).insertionSort demoteRel).take k).map (fun r => r.id)

/-- The ids of the `SELECT id ... WHERE is_selected = 0 AND status =
"active" AND COALESCE(latency, 99999) < 250 ORDER BY COALESCE(latency,
99999) ASC, dislikes ASC, updated_at DESC LIMIT k` subquery: the best `k`
eligible unselected active rows. -/
def promoteIds (table : List ServerRow) (k : Nat) : List Int :=
  (((table.filter promoteEligible).insertionSort promoteRel).take k).map (fun r => r.id)

/-- Embedding of `db.manage_selected_servers`.  The `ORDER BY ... LIMIT`
subqueries are modelled by sorting the qualifying rows with the
corresponding ordering and taking the first `LIMIT` ids; the `UPDATE ...
WHERE id IN (...)` then flips `is_selected` on rows carrying those ids.
When the current count is above `max_selected` the function demotes and
returns; otherwise, when it is below `min_selected`, it promotes;
otherwise it does nothing. -/
def manage_selected_servers (table : List ServerRow)
    (min_selected max_selected : Nat) : List ServerRow :=
  let current_selected := count_selected_active table
  if max_selected < current_selected then
    let ids := demoteIds table (current_selected - max_selected)
    table.map (fun r => if ids.contains r.id then { r with is_selected := false } else r)
  else if current_selected < min_selected then
    let ids := promoteIds table (min_selected - current_selected)
    table.map (fun r => if ids.contains r.id then { r with is_selected := true } else r)
  else table

/-- Embedding of `db.delete_servers_before`:
`DELETE FROM servers WHERE updated_at < ?`. -/
def delete_servers_before (table : List ServerRow) (before_ts : Nat) : List ServerRow :=
  table.filter (fun r => !(r.updated_at < before_ts : Bool))

end PimxBot

namespace PimxBot

/-- Backslash character (regex-escaped in the source pattern). -/
def backslashChar : Char := Char.ofNat 92

/-- Non-overlapping left-to-right matches of the pattern `/([a-z]{2})/`
(`re.findall`): a slash, two lowercase letters, a slash; scanning resumes
after the trailing slash of a match. -/
def pathSegMatches : List Char → List String
  | '/' :: a :: b :: '/' :: rest =>
    if a.isLower ∧ b.isLower then
      String.mk [a, b] :: pathSegMatches rest
    else pathSegMatches (a :: b :: '/' :: rest)
  | _ :: rest => pathSegMatches rest
  | [] => []

/-- Whether the pattern `[-_/]([a-z]{2})\\.txt` matches at the head of the
character list.  In the source this pattern is written inside a raw string,
so `\\` denotes an escaped backslash: the regex demands a literal
backslash followed by one arbitrary character and then `txt`. -/
def suffixMatchHere : List Char → Option String
  | sep :: a :: b :: bs :: _ :: 't' :: 'x' :: 't' :: _ =>
    if (sep = '-' ∨ sep = '_' ∨ sep = '/') ∧ a.isLower ∧ b.isLower ∧ bs = backslashChar then
      some (String.mk [a, b])
    else none
  | _ => none

/-- First match of the pattern `[-_/]([a-z]{2})\\.txt` anywhere in the
character list (`re.search`). -/
def suffixSearch : List Char → Option String
  | [] => none
  | c :: rest =>
    match suffixMatchHere (c :: rest) with
    | some s => some s
    | none => suffixSearch rest

/-- Embedding of `scanner._infer_country_code`: lowercase the URL, return
the last `/xx/` path-segment match uppercased, otherwise the first match
of the (backslash-demanding) suffix pattern uppercased, otherwise `none`. -/
def infer_country_code (source_url : String) : Option String :=
  let url := String.mk (source_url.toList.map Char.toLower)
  match (pathSegMatches url.toList).getLast? with
  | some code => some code.toUpper
  | none =>
    match suffixSearch url.toList with
    | some code => some code.toUpper
    | none => none

/-- Python `x or y` on strings (empty string falsy). -/
def pyOrS (a b : String) : String := if a = "" then b else a

/-- The `server_row` dictionary built by the scan worker
(`scanner.Scanner._run_scan.worker`) from a candidate, its test result and
the resolved country code. -/
def worker_row (cfg : ParsedConfig) (result : TestOutcome)
    (country_code : Option String) : UpsertInput :=
  { config_string := cfg.original_string
    protocol := cfg.protocol
    transport := some cfg.transport
    tls := some cfg.tls
    name := some cfg.ps
    address := cfg.add
    port := cfg.port
    host := some (pyOrS cfg.host cfg.add)
    path := some (pyOrS cfg.path "/")
    country := country_code
    latency := some result.latency
    status := some result.status
    quality_score := some (if result.status = "active" then 85 else 0)
    reachable := result.reachable
    scanned := result.scanned
    source_id := cfg.source_id
    is_selected := result.status = "active" }

/-- Embedding of the pre-test reset `UPDATE servers SET is_selected = 0`
(`scanner.Scanner._run_scan`). -/
def resetSelected (table : List ServerRow) : List ServerRow :=
  table.map (fun r => { r with is_selected := false })

/-- State of the lock-serialized counter section of the scan workers:
the table, the one-shot `cleared_old` flag, and how many times
`delete_servers_before` has been invoked this cycle. -/
structure CycleState where
  table : List ServerRow
  cleared_old : Bool
  purges : Nat
deriving Repr

/-- Embedding of the counter section of `scanner.Scanner._run_scan.worker`:
when the tested candidate was classified `active` and `cleared_old` is
still unset, set it and delete every row whose `updated_at` predates the
cycle start. -/
def record_result (scan_started_at : Nat) (st : CycleState) (res : TestOutcome) :
    CycleState :=
  if res.status = "active" ∧ st.cleared_old = false then
    { table := delete_servers_before st.table scan_started_at
      cleared_old := true
      purges := st.purges + 1 }
  else st

/-- The counter sections of all workers of one cycle, in the order the
`counter_lock` serializes them. -/
def run_results (scan_started_at : Nat) (st : CycleState) (rs : List TestOutcome) :
    CycleState :=
  rs.foldl (record_result scan_started_at) st

/-- A row of the `sources` table (the fields the harvest loop touches). -/
structure SourceRow where
  id : Int
  url : String
  last_scan : Option Nat
deriving DecidableEq, Repr

/-- Embedding of `UPDATE sources SET last_scan = CURRENT_TIMESTAMP WHERE
id = ?`. -/
def mark_source_scanned (table : List SourceRow) (sid : Int) (now : Nat) :
    List SourceRow :=
  table.map (fun s => if s.id = sid then { s with last_scan := some now } else s)

/-- Merge freshly parsed candidates into the cycle-wide unique map
(first occurrence wins, insertion order preserved). -/
def mergeUnique (uniq : List ParsedConfig) (parsed : List ParsedConfig) :
    List ParsedConfig :=
  parsed.foldl
    (fun acc c =>
      if acc.any (fun d => d.original_string == c.original_string) then acc
      else acc ++ [c])
    uniq

/-- Embedding of the harvest loop of `scanner.Scanner._run_scan`: iterate
the active sources; stop once the unique map holds `servers_needed`
candidates; a failed fetch skips the source entirely (`continue`) — in
particular without touching its `last_scan`; a successful fetch parses the
text, merges the candidates and then stamps the source's `last_scan`.
`fetch` abstracts `session.get` (with `none` for a raised exception) and
`parseFn` stands for `parse_server_configs` applied to some library
behaviour. -/
def harvestLoop (parseFn : String → Option Int → Except PyErr (List ParsedConfig))
    (fetch : Int → Option String) (servers_needed : Nat) (now : Nat)
    (table : List SourceRow) (pending : List SourceRow) (uniq : List ParsedConfig) :
    Except PyErr (List SourceRow × List ParsedConfig) :=
  match pending with
  | [] => .ok (table, uniq)
  | src :: rest =>
    if servers_needed ≤ uniq.length then .ok (table, uniq)
    else
      match fetch src.id with
      | none => harvestLoop parseFn fetch servers_needed now table rest uniq
      | some text => do
        let parsed ← parseFn text (some src.id)
        harvestLoop parseFn fetch servers_needed now
          (mark_source_scanned table src.id now) rest (mergeUnique uniq parsed)

/-- The per-row part of the store invariants: a selected row is active,
and a row is reachable exactly when it is active. -/
def RowInv (r : ServerRow) : Prop :=
  (r.is_selected = true → r.status = "active") ∧
    (r.reachable = true ↔ r.status = "active")

/-- The store invariants over a whole table. -/
def TableInv (table : List ServerRow) : Prop :=
  ∀ r ∈ table, RowInv r

end PimxBot

namespace PimxBot

/-- A probe behaviour that fails on the first invocation and succeeds on
the second. -/
def demoFailProbe : Nat → ProbeResult :=
  fun n => if n = 0 then { ok := false, latency_ms := 999 } else { ok := true, latency_ms := 42 }

/-- A probe behaviour that always succeeds with latency 100. -/
def demoOkProbe : Nat → ProbeResult :=
  fun _ => { ok := true, latency_ms := 100 }

/-- C5: the best-of-two retry runs the probe once and keeps that result if
it succeeded; if it failed, it runs the probe exactly one more time and
returns the second outcome unconditionally; the probe is never invoked a
third time. -/
theorem probe_best_of_two_retry (probe : Nat → ProbeResult) :
    ((probe 0).ok = true → probe_best_of_two probe = (probe 0, 1)) ∧
    ((probe 0).ok = false → probe_best_of_two probe = (probe 1, 2)) ∧
    (probe_best_of_two probe).2 ≤ 2 := by
  unfold probe_best_of_two
  by_cases h : (probe 0).ok <;> simp [h]

/-- Witness for `probe_best_of_two_retry` at a probe that fails once and
then succeeds. -/
theorem probe_best_of_two_retry_witness :
    probe_best_of_two demoFailProbe = (demoFailProbe 1, 2) ∧
    probe_best_of_two demoOkProbe = (demoOkProbe 0, 1) :=
  ⟨(probe_best_of_two_retry demoFailProbe).2.1 rfl,
   (probe_best_of_two_retry demoOkProbe).1 rfl⟩

/-- C4: `test_server` yields `timeout`/unreachable exactly when the
best-of-two probe failed or its latency is strictly above
`max_latency_ms`, and `active`/reachable otherwise; latency exactly at the
bound is `active`, one millisecond over is `timeout`, and the status
`error` is never produced. -/
theorem test_server_latency_gate (probe : Nat → ProbeResult) (max_latency_ms : Nat) :
    ((test_server probe max_latency_ms).status = "timeout" ∧
        (test_server probe max_latency_ms).reachable = false ↔
      (probe_best_of_two probe).1.ok = false ∨
        max_latency_ms < (probe_best_of_two probe).1.latency_ms) ∧
    (¬((probe_best_of_two probe).1.ok = false ∨
        max_latency_ms < (probe_best_of_two probe).1.latency_ms) →
      (test_server probe max_latency_ms).status = "active" ∧
        (test_server probe max_latency_ms).reachable = true) ∧
    ((test_server probe max_latency_ms).status = "active" ∨
      (test_server probe max_latency_ms).status = "timeout") ∧
    (test_server probe max_latency_ms).status ≠ "error" ∧
    ((probe_best_of_two probe).1.ok = true ∧
        (probe_best_of_two probe).1.latency_ms = max_latency_ms →
      (test_server probe max_latency_ms).status = "active") ∧
    ((probe_best_of_two probe).1.ok = true ∧
        (probe_best_of_two probe).1.latency_ms = max_latency_ms + 1 →
      (test_server probe max_latency_ms).status = "timeout") := by
  unfold test_server
  by_cases h : (probe_best_of_two probe).1.ok = false ∨
      max_latency_ms < (probe_best_of_two probe).1.latency_ms
  · simp only [if_pos h]
    refine ⟨by simp [h], by simp [h], by simp, by simp, ?_, by simp⟩
    rintro ⟨hok, hlat⟩
    rcases h with h | h
    · rw [hok] at h; cases h
    · rw [hlat] at h; omega
  · simp only [if_neg h]
    refine ⟨by simpa using h, ?_, by simp, by simp, ?_, ?_⟩
    · intro hx
      trivial
    · intro hx
      trivial
    · rintro ⟨hok, hlat⟩
      exact absurd (Or.inr (by omega)) h

/-- Witness for `test_server_latency_gate`: a successful probe at latency
100 is `active` against a bound of 100 and `timeout` against a bound
of 99. -/
theorem test_server_latency_gate_witness :
    (test_server demoOkProbe 100).status = "active" ∧
    (test_server demoOkProbe 99).status = "timeout" :=
  ⟨(test_server_latency_gate demoOkProbe 100).2.2.2.2.1 ⟨rfl, rfl⟩,
   (test_server_latency_gate demoOkProbe 99).2.2.2.2.2 ⟨rfl, rfl⟩⟩

/-- Once the one-shot flag is set, the counter section never changes the
state again. -/
theorem run_results_cleared (scan_started_at : Nat) (st : CycleState)
    (rs : List TestOutcome) (h : st.cleared_old = true) :
    run_results scan_started_at st rs = st := by
  induction rs with
  | nil => rfl
  | cons r rest ih =>
    show run_results scan_started_at (record_result scan_started_at st r) rest = st
    have : record_result scan_started_at st r = st := by
      unfold record_result
      simp [h]
    rw [this, ih]

/-- C1: starting from an un-cleared cycle state, the serialized counter
sections purge exactly once when some tested candidate is classified
`active` (at the first such candidate, deleting every row whose
`updated_at` predates the cycle start) and never purge otherwise; and
`delete_servers_before` removes precisely the rows whose `updated_at`
predates the given timestamp. -/
theorem scan_purge_one_shot (scan_started_at : Nat) (table : List ServerRow)
    (rs : List TestOutcome) :
    run_results scan_started_at { table := table, cleared_old := false, purges := 0 } rs =
      (if rs.any (fun r => r.status == "active") then
        { table := delete_servers_before table scan_started_at
          cleared_old := true
          purges := 1 }
      else { table := table, cleared_old := false, purges := 0 }) ∧
    (∀ r ∈ table,
      (r ∈ delete_servers_before table scan_started_at ↔
        ¬ r.updated_at < scan_started_at)) := by
  constructor
  · induction rs with
    | nil => rfl
    | cons r rest ih =>
      show run_results scan_started_at
          (record_result scan_started_at { table := table, cleared_old := false, purges := 0 } r)
          rest = _
      by_cases hact : r.status = "active"
      · have hrec : record_result scan_started_at
            { table := table, cleared_old := false, purges := 0 } r =
            { table := delete_servers_before table scan_started_at
              cleared_old := true, purges := 1 } := by
          unfold record_result
          simp [hact]
        rw [hrec, run_results_cleared _ _ _ rfl]
        simp [hact]
      · have hrec : record_result scan_started_at
            { table := table, cleared_old := false, purges := 0 } r =
            { table := table, cleared_old := false, purges := 0 } := by
          unfold record_result
          simp [hact]
        rw [hrec, ih]
        have : (r.status == "active") = false := by
          simpa using hact
        simp [List.any_cons, this]
  · intro r hr
    unfold delete_servers_before
    simp [hr]

/-- A concrete active `servers` row last updated at time 3. -/
def demoRow : ServerRow :=
  { id := 1, config_string := "vless://a", protocol := "vless", transport := some "tcp"
    tls := some "", name := "n", address := "a", port := 443, host := some "a"
    path := some "/", country := some "US", latency := some 50, status := "active"
    quality_score := 85, reachable := true, scanned := true, source_id := some 1
    is_selected := true, dislikes := 2, created_at := 1, updated_at := 3 }

/-- The `test_server` outcome of an active candidate. -/
def demoActiveOutcome : TestOutcome :=
  { latency := 100, status := "active", scanned := true, reachable := true }

/-- Witness for `scan_purge_one_shot`: one active result purges the stale
row `demoRow` exactly once. -/
theorem scan_purge_one_shot_witness :
    run_results 5 { table := [demoRow], cleared_old := false, purges := 0 }
        [demoActiveOutcome] =
      { table := [], cleared_old := true, purges := 1 } ∧
    ¬ (demoRow ∈ delete_servers_before [demoRow] 5) := by
  have h := scan_purge_one_shot 5 [demoRow] [demoActiveOutcome]
  constructor
  · rw [h.1]; rfl
  · intro hmem
    exact ((h.2 demoRow (by simp)).1 hmem) (by decide)

end PimxBot

namespace PimxBot

/-- C6: when `upsert_server` hits an existing row with the incoming
fingerprint, the table is rewritten row-by-row (nothing inserted or
deleted) with every matching row overwritten by `upsert_update_row`; and
`upsert_update_row` keeps `id`, `config_string`, `created_at` and
`dislikes` unchanged, sets `updated_at` to the current time, and
overwrites every mutable field with the (defaulted) incoming value. -/
theorem upsert_server_conflict_frame (table : List ServerRow) (s : UpsertInput)
    (now : Nat) (newId : Int) (r : ServerRow) (hmem : r ∈ table)
    (hfp : r.config_string = s.config_string) :
    upsert_server table s now newId =
      table.map (fun x =>
        if x.config_string = s.config_string then upsert_update_row x s now else x) ∧
    ∀ x : ServerRow,
      (upsert_update_row x s now).id = x.id ∧
      (upsert_update_row x s now).config_string = x.config_string ∧
      (upsert_update_row x s now).created_at = x.created_at ∧
      (upsert_update_row x s now).dislikes = x.dislikes ∧
      (upsert_update_row x s now).updated_at = now ∧
      (upsert_update_row x s now).protocol = s.protocol ∧
      (upsert_update_row x s now).transport = some (pyOrOSD s.transport "tcp") ∧
      (upsert_update_row x s now).tls = some (pyOrOSD s.tls "") ∧
      (upsert_update_row x s now).name = pyOrOSD s.name "Unnamed" ∧
      (upsert_update_row x s now).address = s.address ∧
      (upsert_update_row x s now).port = s.port ∧
      (upsert_update_row x s now).host = some (pyOrOSD s.host s.address) ∧
      (upsert_update_row x s now).path = some (pyOrOSD s.path "/") ∧
      (upsert_update_row x s now).country = some (pyOrOSD s.country "Unknown") ∧
      (upsert_update_row x s now).latency = s.latency ∧
      (upsert_update_row x s now).status = pyOrOSD s.status "pending" ∧
      (upsert_update_row x s now).quality_score = pyOrOID s.quality_score 0 ∧
      (upsert_update_row x s now).reachable = s.reachable ∧
      (upsert_update_row x s now).scanned = s.scanned ∧
      (upsert_update_row x s now).source_id = s.source_id ∧
      (upsert_update_row x s now).is_selected = s.is_selected := by
  constructor
  · unfold upsert_server
    have hany : table.any (fun x => x.config_string == s.config_string) = true := by
      rw [List.any_eq_true]
      exact ⟨r, hmem, by simpa using hfp⟩
    rw [if_pos hany]
  · intro x
    refine ⟨rfl, rfl, rfl, rfl, rfl, rfl, rfl, rfl, rfl, rfl, rfl, rfl, rfl, rfl, rfl,
      rfl, rfl, rfl, rfl, rfl, rfl⟩

/-- An incoming scan result for the fingerprint of `demoRow`, with the
optional fields absent. -/
def demoInput : UpsertInput :=
  { config_string := "vless://a", protocol := "vless", transport := none, tls := none
    name := none, address := "b", port := 80, host := none, path := none
    country := none, latency := none, status := some "timeout", quality_score := none
    reachable := false, scanned := true, source_id := none, is_selected := false }

/-- Witness for `upsert_server_conflict_frame` at a one-row table whose
row carries the incoming fingerprint. -/
theorem upsert_server_conflict_frame_witness :
    upsert_server [demoRow] demoInput 7 99 = [upsert_update_row demoRow demoInput 7] ∧
    (upsert_update_row demoRow demoInput 7).dislikes = demoRow.dislikes ∧
    (upsert_update_row demoRow demoInput 7).created_at = demoRow.created_at ∧
    (upsert_update_row demoRow demoInput 7).updated_at = 7 := by
  have h := upsert_server_conflict_frame [demoRow] demoInput 7 99 demoRow (by simp) rfl
  refine ⟨?_, (h.2 demoRow).2.2.2.1, (h.2 demoRow).2.2.1, (h.2 demoRow).2.2.2.2.1⟩
  rw [h.1]
  simp [demoRow, demoInput]

/-- C10: every row written through `upsert_server` (both the conflict
update and the fresh insert) stores non-null fallbacks for the optional
fields: an absent country as `"Unknown"` (the stored country is never
`NULL` for any input), an absent name as `"Unnamed"`, an absent host as
the address, an absent path as `"/"`, and an absent transport as
`"tcp"`. -/
theorem upsert_server_fallback_defaults (s : UpsertInput) (r : ServerRow)
    (now : Nat) (newId : Int) (hc : s.country = none) (hn : s.name = none)
    (hh : s.host = none) (hp : s.path = none) (ht : s.transport = none) :
    ((upsert_update_row r s now).country = some "Unknown" ∧
     (upsert_update_row r s now).name = "Unnamed" ∧
     (upsert_update_row r s now).host = some s.address ∧
     (upsert_update_row r s now).path = some "/" ∧
     (upsert_update_row r s now).transport = some "tcp") ∧
    ((upsert_insert_row s now newId).country = some "Unknown" ∧
     (upsert_insert_row s now newId).name = "Unnamed" ∧
     (upsert_insert_row s now newId).host = some s.address ∧
     (upsert_insert_row s now newId).path = some "/" ∧
     (upsert_insert_row s now newId).transport = some "tcp") ∧
    (∀ s2 : UpsertInput,
      ((upsert_update_row r s2 now).country).isSome = true ∧
      ((upsert_insert_row s2 now newId).country).isSome = true) := by
  refine ⟨?_, ?_, ?_⟩
  · rw [show (upsert_update_row r s now).country = some (pyOrOSD s.country "Unknown") from rfl,
      show (upsert_update_row r s now).name = pyOrOSD s.name "Unnamed" from rfl,
      show (upsert_update_row r s now).host = some (pyOrOSD s.host s.address) from rfl,
      show (upsert_update_row r s now).path = some (pyOrOSD s.path "/") from rfl,
      show (upsert_update_row r s now).transport = some (pyOrOSD s.transport "tcp") from rfl,
      hc, hn, hh, hp, ht]
    exact ⟨rfl, rfl, rfl, rfl, rfl⟩
  · rw [show (upsert_insert_row s now newId).country = some (pyOrOSD s.country "Unknown") from rfl,
      show (upsert_insert_row s now newId).name = pyOrOSD s.name "Unnamed" from rfl,
      show (upsert_insert_row s now newId).host = some (pyOrOSD s.host s.address) from rfl,
      show (upsert_insert_row s now newId).path = some (pyOrOSD s.path "/") from rfl,
      show (upsert_insert_row s now newId).transport = some (pyOrOSD s.transport "tcp") from rfl,
      hc, hn, hh, hp, ht]
    exact ⟨rfl, rfl, rfl, rfl, rfl⟩
  · intro s2
    exact ⟨rfl, rfl⟩

/-- Witness for `upsert_server_fallback_defaults` at `demoInput`, whose
optional fields are all absent. -/
theorem upsert_server_fallback_defaults_witness :
    (upsert_update_row demoRow demoInput 7).country = some "Unknown" ∧
    (upsert_insert_row demoInput 7 99).name = "Unnamed" ∧
    (upsert_insert_row demoInput 7 99).host = some "b" ∧
    (upsert_insert_row demoInput 7 99).path = some "/" ∧
    (upsert_insert_row demoInput 7 99).transport = some "tcp" := by
  have h := upsert_server_fallback_defaults demoInput demoRow 7 99 rfl rfl rfl rfl rfl
  exact ⟨h.1.1, h.2.1.2.1, h.2.1.2.2.1, h.2.1.2.2.2.1, h.2.1.2.2.2.2⟩

end PimxBot

namespace PimxBot

/-- C9: the static inference returns no country for a URL that ends in a
two-letter filename suffix but has no two-letter path segment — the
suffix branch of `_infer_country_code` can only match a URL containing a
literal backslash, so `"-us.txt"` is never recognised, contrary to the
comment above the pattern. -/
theorem infer_country_code_suffix_dead :
    infer_country_code "https://example.com/sub-us.txt" = none ∧
    suffixSearch ("https://example.com/sub-us.txt").toList = none := by
  constructor <;> rfl

/-- C2: `parse_server_configs` raises (rather than dropping the token) on
a URI-style config whose port is non-numeric: the `parsed.port` property
read outside the `try` block raises `ValueError`. -/
theorem parse_server_configs_port_raises :
    parse_server_configs inertLibs "vless://example.com:abc" none =
      .error .valueError := by
  rfl

/-- A source row last scanned at time 5. -/
def demoSource : SourceRow :=
  { id := 1, url := "https://example.com/a.txt", last_scan := some 5 }

/-- A parse behaviour that always yields no candidates. -/
def demoParse : String → Option Int → Except PyErr (List ParsedConfig) :=
  fun _ _ => .ok []

/-- A fetch behaviour whose every attempt raises. -/
def demoFetchFail : Int → Option String :=
  fun _ => none

/-- A fetch behaviour whose every attempt returns the text `"x"`. -/
def demoFetchOk : Int → Option String :=
  fun _ => some "x"

/-- C8 counterexample: a fetch attempt that reaches the network layer and
fails leaves the source's `last_scan` untouched (still 5, not the current
time 9) — the loop `continue`s before the `UPDATE sources` statement. -/
theorem harvest_failed_fetch_keeps_last_scan :
    harvestLoop demoParse demoFetchFail 10 9 [demoSource] [demoSource] [] =
      .ok ([demoSource], []) ∧
    demoSource.last_scan = some 5 ∧
    (5 : Nat) ≠ 9 := by
  refine ⟨rfl, rfl, by decide⟩

/-- Composition of two `Forall₂` chains under a pointwise composition law
for the relations involved. -/
theorem forall₂_compose {α : Type} {P Q R : α → α → Prop}
    (hcomp : ∀ a b c, P a b → Q b c → R a c) :
    ∀ {l1 l2 l3 : List α},
      List.Forall₂ P l1 l2 → List.Forall₂ Q l2 l3 → List.Forall₂ R l1 l3
  | _, _, _, .nil, .nil => .nil
  | _, _, _, .cons hab hrest, .cons hbc hrest2 =>
    .cons (hcomp _ _ _ hab hbc) (forall₂_compose hcomp hrest hrest2)

/-- C8 (amended): in the harvest loop, a source row is either left exactly
as it was or gets `last_scan` stamped with the current time, and the stamp
happens only for a source id whose fetch attempt succeeded — never for a
failed fetch. -/
theorem harvest_marks_only_successful_fetches
    (parseFn : String → Option Int → Except PyErr (List ParsedConfig))
    (fetch : Int → Option String) (servers_needed : Nat) (now : Nat)
    (pending : List SourceRow) :
    ∀ table table2 uniq uniq2,
      harvestLoop parseFn fetch servers_needed now table pending uniq =
        .ok (table2, uniq2) →
      List.Forall₂
        (fun s s2 => s2 = s ∨ (s2 = { s with last_scan := some now } ∧ fetch s.id ≠ none))
        table table2 := by
  induction pending with
  | nil =>
    intro table table2 uniq uniq2 h
    unfold harvestLoop at h
    injection h with h
    injection h with h1 h2
    subst h1
    exact List.forall₂_same.2 (fun s _ => Or.inl rfl)
  | cons src rest ih =>
    intro table table2 uniq uniq2 h
    unfold harvestLoop at h
    by_cases hstop : servers_needed ≤ uniq.length
    · rw [if_pos hstop] at h
      injection h with h
      injection h with h1 h2
      subst h1
      exact List.forall₂_same.2 (fun s _ => Or.inl rfl)
    · rw [if_neg hstop] at h
      cases hfetch : fetch src.id with
      | none =>
        rw [hfetch] at h
        exact ih table table2 uniq uniq2 h
      | some text =>
        rw [hfetch] at h
        have h3 : Except.bind (parseFn text (some src.id))
            (fun parsed => harvestLoop parseFn fetch servers_needed now
              (mark_source_scanned table src.id now) rest (mergeUnique uniq parsed)) =
            Except.ok (table2, uniq2) := h
        cases hparse : parseFn text (some src.id) with
        | error e =>
          rw [hparse] at h3
          simp [Except.bind] at h3
        | ok parsed =>
          rw [hparse] at h3
          have h4 : harvestLoop parseFn fetch servers_needed now
              (mark_source_scanned table src.id now) rest (mergeUnique uniq parsed) =
              Except.ok (table2, uniq2) := h3
          have h2 := ih (mark_source_scanned table src.id now) table2
            (mergeUnique uniq parsed) uniq2 h4
          -- Compose the single marking step with the rest of the loop.
          have hmark : List.Forall₂
              (fun s s2 => s2 = s ∨ (s2 = { s with last_scan := some now } ∧ fetch s.id ≠ none))
              table (mark_source_scanned table src.id now) := by
            unfold mark_source_scanned
            rw [List.forall₂_map_right_iff]
            refine List.forall₂_same.2 (fun s _ => ?_)
            by_cases hid : s.id = src.id
            · rw [if_pos hid]
              exact Or.inr ⟨rfl, by rw [hid, hfetch]; simp⟩
            · rw [if_neg hid]
              exact Or.inl rfl
          -- Transitivity of the per-row relation through the marking.
          refine forall₂_compose ?_ hmark h2
          rintro s m s2 (rfl | ⟨rfl, hfs⟩) hrel
          · exact hrel
          · rcases hrel with rfl | ⟨rfl, _⟩
            · exact Or.inr ⟨rfl, hfs⟩
            · exact Or.inr ⟨rfl, hfs⟩

/-- Witness for `harvest_marks_only_successful_fetches`: one source with a
successful fetch comes out stamped with the current time. -/
theorem harvest_marks_only_successful_fetches_witness :
    List.Forall₂
      (fun s s2 => s2 = s ∨
        (s2 = { s with last_scan := some (9 : Nat) } ∧ demoFetchOk s.id ≠ none))
      [demoSource] [{ demoSource with last_scan := some 9 }] :=
  harvest_marks_only_successful_fetches demoParse demoFetchOk 1 9 [demoSource]
    [demoSource] [{ demoSource with last_scan := some 9 }] [] [] rfl

end PimxBot

namespace PimxBot

/-- Splitting a filtered length along a second predicate. -/
theorem length_filter_split {α : Type} (p q : α → Bool) (l : List α) :
    (l.filter p).length =
      (l.filter (fun a => p a && q a)).length +
        (l.filter (fun a => p a && !q a)).length := by
  induction l with
  | nil => rfl
  | cons a t ih =>
    by_cases hp : p a <;> by_cases hq : q a <;>
      simp [hp, hq, ih] <;> omega

/-- Filtering after mapping has the same length as filtering the composed
predicate. -/
theorem length_filter_map_comp {α β : Type} (f : α → β) (p : β → Bool) (l : List α) :
    ((l.map f).filter p).length = (l.filter (fun a => p (f a))).length := by
  induction l with
  | nil => rfl
  | cons a t ih => by_cases hp : p (f a) <;> simp [hp, ih]

/-- Disjoint predicates add their filtered lengths. -/
theorem length_filter_or_disjoint {α : Type} (p q : α → Bool) (l : List α)
    (h : ∀ a ∈ l, ¬(p a = true ∧ q a = true)) :
    (l.filter (fun a => p a || q a)).length = (l.filter p).length + (l.filter q).length := by
  induction l with
  | nil => rfl
  | cons a t ih =>
    have ht : ∀ a ∈ t, ¬(p a = true ∧ q a = true) := fun a ha => h a (List.mem_cons_of_mem _ ha)
    by_cases hp : p a <;> by_cases hq : q a
    · exact absurd ⟨hp, hq⟩ (h a (List.mem_cons_self a t))
    · simp [hp, hq, ih ht] <;> omega
    · simp [hp, hq, ih ht] <;> omega
    · simp [hp, hq, ih ht] <;> omega

/-- In a table with pairwise-distinct ids, the rows whose id lies in a
duplicate-free id list that is drawn from the table are exactly as many as
the ids. -/
theorem length_filter_contains_ids (t : List ServerRow) (ids : List Int)
    (hids : (t.map (fun r => r.id)).Nodup) (hI : ids.Nodup)
    (hsub : ∀ i ∈ ids, i ∈ t.map (fun r => r.id)) :
    (t.filter (fun r => ids.contains r.id)).length = ids.length := by
  have hlen := length_filter_map_comp (fun r : ServerRow => r.id)
    (fun i => ids.contains i) t
  rw [← hlen]
  have hperm : List.Perm ((t.map (fun r => r.id)).filter (fun i => ids.contains i)) ids := by
    rw [List.perm_ext_iff_of_nodup (hids.filter _) hI]
    intro a
    simp only [List.mem_filter, List.contains, List.elem_eq_mem, decide_eq_true_eq]
    constructor
    · intro h
      exact h.2
    · intro h
      exact ⟨hsub a h, h⟩
  exact hperm.length_eq

end PimxBot

namespace PimxBot

/-- Rows taken from the sorted filtered pool lie in the table and satisfy
the filter. -/
theorem chosen_mem_and_pred {rel : ServerRow → ServerRow → Prop} [DecidableRel rel]
    (P : ServerRow → Bool) (t : List ServerRow) (k : Nat) (r : ServerRow)
    (hr : r ∈ ((t.filter P).insertionSort rel).take k) :
    r ∈ t ∧ P r = true := by
  have h1 : r ∈ (t.filter P).insertionSort rel := List.take_subset _ _ hr
  have h2 : r ∈ t.filter P := (List.perm_insertionSort rel (t.filter P)).mem_iff.1 h1
  exact ⟨(List.mem_filter.1 h2).1, (List.mem_filter.1 h2).2⟩

/-- With pairwise-distinct ids, a row's id lies among the chosen ids
exactly when the row itself is among the chosen rows. -/
theorem contains_chosen_iff {rel : ServerRow → ServerRow → Prop} [DecidableRel rel]
    (P : ServerRow → Bool) (t : List ServerRow) (k : Nat)
    (hids : (t.map (fun r => r.id)).Nodup) (r : ServerRow) (hr : r ∈ t) :
    ((((t.filter P).insertionSort rel).take k).map (fun c => c.id)).contains r.id = true ↔
      r ∈ ((t.filter P).insertionSort rel).take k := by
  constructor
  · intro h
    have hmem : r.id ∈ (((t.filter P).insertionSort rel).take k).map (fun c => c.id) := by
      simpa [List.contains] using h
    rcases List.mem_map.1 hmem with ⟨c, hc, hcid⟩
    have hct : c ∈ t := (chosen_mem_and_pred P t k c hc).1
    have heq : c = r := List.inj_on_of_nodup_map hids hct hr hcid
    rw [← heq]
    exact hc
  · intro h
    have hmem : r.id ∈ (((t.filter P).insertionSort rel).take k).map (fun c => c.id) :=
      List.mem_map_of_mem _ h
    simpa [List.contains] using hmem

/-- The chosen ids are duplicate-free. -/
theorem chosen_ids_nodup {rel : ServerRow → ServerRow → Prop} [DecidableRel rel]
    (P : ServerRow → Bool) (t : List ServerRow) (k : Nat)
    (hids : (t.map (fun r => r.id)).Nodup) :
    ((((t.filter P).insertionSort rel).take k).map (fun c => c.id)).Nodup := by
  have hT : t.Nodup := List.Nodup.of_map _ hids
  have hpool : (t.filter P).Nodup := hT.filter _
  have hsorted : ((t.filter P).insertionSort rel).Nodup :=
    ((List.perm_insertionSort rel (t.filter P)).nodup_iff).2 hpool
  have htake : (((t.filter P).insertionSort rel).take k).Nodup :=
    List.Nodup.sublist (List.take_sublist _ _) hsorted
  refine htake.map_on ?_
  intro x hx y hy hxy
  exact List.inj_on_of_nodup_map hids
    (chosen_mem_and_pred P t k x hx).1 (chosen_mem_and_pred P t k y hy).1 hxy

/-- How many rows are chosen: the `LIMIT` bound capped by the pool size. -/
theorem chosen_length {rel : ServerRow → ServerRow → Prop} [DecidableRel rel]
    (P : ServerRow → Bool) (t : List ServerRow) (k : Nat) :
    (((t.filter P).insertionSort rel).take k).length = min k (t.filter P).length := by
  rw [List.length_take, List.length_insertionSort]

/-- Every chosen row sorts no later than every unchosen pool row: the
`ORDER BY ... LIMIT` subquery takes an initial segment of the sorted
pool. -/
theorem chosen_cross {rel : ServerRow → ServerRow → Prop} [DecidableRel rel]
    [IsTotal ServerRow rel] [IsTrans ServerRow rel]
    (P : ServerRow → Bool) (t : List ServerRow) (k : Nat) (a b : ServerRow)
    (ha : a ∈ ((t.filter P).insertionSort rel).take k)
    (hb : b ∈ (t.filter P).insertionSort rel)
    (hbn : b ∉ ((t.filter P).insertionSort rel).take k) :
    rel a b := by
  have hs : List.Pairwise rel ((t.filter P).insertionSort rel) :=
    List.sorted_insertionSort rel (t.filter P)
  have hsplit := List.take_append_drop k ((t.filter P).insertionSort rel)
  rw [← hsplit] at hs hb
  rw [List.pairwise_append] at hs
  rcases List.mem_append.1 hb with h | h
  · exact absurd h hbn
  · exact hs.2.2 a ha b h

/-- Zipping a list with its image under a map pairs each element with its
image. -/
theorem zip_self_map {α : Type} (f : α → α) (l : List α) :
    l.zip (l.map f) = l.map (fun a => (a, f a)) := by
  induction l with
  | nil => rfl
  | cons a rest ih => simp [ih]

end PimxBot

namespace PimxBot

/-- The demotion branch of the Selection Policy: with `C` selected-active
rows and `C > max_selected`, exactly `C - max_selected` selected-active
rows are demoted (leaving `max_selected`), nothing else changes, and the
demoted rows are worst-first with respect to the demotion ordering. -/
theorem manage_demote_branch (t : List ServerRow) (mn mx : Nat)
    (hids : (t.map (fun r => r.id)).Nodup)
    (hmx : mx < count_selected_active t) :
    count_selected_active (manage_selected_servers t mn mx) = mx ∧
    List.Forall₂
      (fun r r2 => r2 = r ∨ (r2 = { r with is_selected := false } ∧ selActive r = true))
      t (manage_selected_servers t mn mx) ∧
    (∀ p ∈ t.zip (manage_selected_servers t mn mx),
     ∀ q ∈ t.zip (manage_selected_servers t mn mx),
       p.2.is_selected = false → selActive p.1 = true →
       q.2 = q.1 → selActive q.1 = true → demoteRel p.1 q.1) := by
  have hCdef : count_selected_active t = (t.filter selActive).length := rfl
  have heq : manage_selected_servers t mn mx =
      t.map (fun r =>
        if (demoteIds t (count_selected_active t - mx)).contains r.id then
          { r with is_selected := false } else r) := by
    simp only [manage_selected_servers]
    rw [if_pos hmx]
  have hcontains : ∀ r ∈ t,
      ((demoteIds t (count_selected_active t - mx)).contains r.id = true ↔
        r ∈ ((t.filter selActive).insertionSort demoteRel).take
          (count_selected_active t - mx)) :=
    fun r hr => contains_chosen_iff selActive t (count_selected_active t - mx) hids r hr
  have hchosen_sel : ∀ r ∈ ((t.filter selActive).insertionSort demoteRel).take
      (count_selected_active t - mx), selActive r = true :=
    fun r hr => (chosen_mem_and_pred selActive t (count_selected_active t - mx) r hr).2
  have hklen : (demoteIds t (count_selected_active t - mx)).length =
      count_selected_active t - mx := by
    unfold demoteIds
    rw [List.length_map, chosen_length, ← hCdef, Nat.min_eq_left (by omega)]
  have hcount : count_selected_active (manage_selected_servers t mn mx) = mx := by
    rw [heq]
    show ((t.map _).filter selActive).length = mx
    rw [length_filter_map_comp]
    have hpt : t.filter (fun r =>
        selActive (if (demoteIds t (count_selected_active t - mx)).contains r.id then
          { r with is_selected := false } else r)) =
        t.filter (fun r =>
          selActive r && !((demoteIds t (count_selected_active t - mx)).contains r.id)) := by
      apply List.filter_congr
      intro r hr
      by_cases hc : (demoteIds t (count_selected_active t - mx)).contains r.id = true
      · rw [if_pos hc, hc]
        simp [selActive]
      · rw [if_neg hc]
        have hcf : (demoteIds t (count_selected_active t - mx)).contains r.id = false :=
          Bool.eq_false_iff.2 hc
        rw [hcf]
        simp
    rw [hpt]
    have hsplit := length_filter_split selActive
      (fun r => (demoteIds t (count_selected_active t - mx)).contains r.id) t
    have hsa : t.filter (fun r =>
        selActive r && (demoteIds t (count_selected_active t - mx)).contains r.id) =
        t.filter (fun r => (demoteIds t (count_selected_active t - mx)).contains r.id) := by
      apply List.filter_congr
      intro r hr
      by_cases hc : (demoteIds t (count_selected_active t - mx)).contains r.id = true
      · rw [hc, hchosen_sel r ((hcontains r hr).1 hc)]
        rfl
      · have hcf : (demoteIds t (count_selected_active t - mx)).contains r.id = false :=
          Bool.eq_false_iff.2 hc
        rw [hcf]
        simp
    have hsubids : ∀ i ∈ demoteIds t (count_selected_active t - mx),
        i ∈ t.map (fun r => r.id) := by
      intro i hi
      unfold demoteIds at hi
      rcases List.mem_map.1 hi with ⟨c, hc, rfl⟩
      exact List.mem_map_of_mem _
        (chosen_mem_and_pred selActive t (count_selected_active t - mx) c hc).1
    have hcnt := length_filter_contains_ids t (demoteIds t (count_selected_active t - mx))
      hids (chosen_ids_nodup selActive t (count_selected_active t - mx) hids) hsubids
    have hsa_len := congrArg List.length hsa
    rw [hCdef] at hmx
    omega
  refine ⟨hcount, ?_, ?_⟩
  · rw [heq, List.forall₂_map_right_iff]
    refine List.forall₂_same.2 ?_
    intro r hr
    by_cases hc : (demoteIds t (count_selected_active t - mx)).contains r.id = true
    · rw [if_pos hc]
      exact Or.inr ⟨rfl, hchosen_sel r ((hcontains r hr).1 hc)⟩
    · rw [if_neg hc]
      exact Or.inl rfl
  · intro p hp q hq hpFlip hpSel hqKeep hqSel
    rw [heq, zip_self_map] at hp hq
    rcases List.mem_map.1 hp with ⟨r, hrt, rfl⟩
    rcases List.mem_map.1 hq with ⟨s, hst, rfl⟩
    simp only at hpFlip hpSel hqKeep hqSel
    have hrsel : r.is_selected = true := by
      have h2 := hpSel
      unfold selActive at h2
      simp only [Bool.and_eq_true] at h2
      exact h2.1
    have hssel : s.is_selected = true := by
      have h2 := hqSel
      unfold selActive at h2
      simp only [Bool.and_eq_true] at h2
      exact h2.1
    have hrc : (demoteIds t (count_selected_active t - mx)).contains r.id = true := by
      by_contra hc
      rw [if_neg hc] at hpFlip
      rw [hrsel] at hpFlip
      cases hpFlip
    have hrchosen := (hcontains r hrt).1 hrc
    have hsnot : s ∉ ((t.filter selActive).insertionSort demoteRel).take
        (count_selected_active t - mx) := by
      intro hmem
      have hsc := (hcontains s hst).2 hmem
      rw [if_pos hsc] at hqKeep
      have hfield := congrArg ServerRow.is_selected hqKeep
      rw [hssel] at hfield
      cases hfield
    have hspool : s ∈ (t.filter selActive).insertionSort demoteRel :=
      (List.perm_insertionSort demoteRel (t.filter selActive)).mem_iff.2
        (List.mem_filter.2 ⟨hst, hqSel⟩)
    exact chosen_cross selActive t (count_selected_active t - mx) r s hrchosen hspool hsnot

end PimxBot

namespace PimxBot

/-- The promotion branch of the Selection Policy: with `C` selected-active
rows and `C < min_selected`, up to `min_selected - C` eligible rows
(unselected, active, latency below 250) are promoted — exactly
`min(min_selected - C, number of eligible rows)` — nothing else changes,
and the promoted rows are best-first with respect to the promotion
ordering. -/
theorem manage_promote_branch (t : List ServerRow) (mn mx : Nat)
    (hids : (t.map (fun r => r.id)).Nodup)
    (hnotmx : ¬ mx < count_selected_active t)
    (hmn : count_selected_active t < mn) :
    count_selected_active (manage_selected_servers t mn mx) =
      count_selected_active t +
        min (mn - count_selected_active t) ((t.filter promoteEligible).length) ∧
    List.Forall₂
      (fun r r2 => r2 = r ∨ (r2 = { r with is_selected := true } ∧ promoteEligible r = true))
      t (manage_selected_servers t mn mx) ∧
    (∀ p ∈ t.zip (manage_selected_servers t mn mx),
     ∀ q ∈ t.zip (manage_selected_servers t mn mx),
       p.1.is_selected = false → p.2.is_selected = true →
       q.2 = q.1 → promoteEligible q.1 = true → promoteRel p.1 q.1) := by
  have heq : manage_selected_servers t mn mx =
      t.map (fun r =>
        if (promoteIds t (mn - count_selected_active t)).contains r.id then
          { r with is_selected := true } else r) := by
    simp only [manage_selected_servers]
    rw [if_neg hnotmx, if_pos hmn]
  have hcontains : ∀ r ∈ t,
      ((promoteIds t (mn - count_selected_active t)).contains r.id = true ↔
        r ∈ ((t.filter promoteEligible).insertionSort promoteRel).take
          (mn - count_selected_active t)) :=
    fun r hr => contains_chosen_iff promoteEligible t (mn - count_selected_active t) hids r hr
  have hchosen_elig : ∀ r ∈ ((t.filter promoteEligible).insertionSort promoteRel).take
      (mn - count_selected_active t), promoteEligible r = true :=
    fun r hr => (chosen_mem_and_pred promoteEligible t (mn - count_selected_active t) r hr).2
  have helig_parts : ∀ r : ServerRow, promoteEligible r = true →
      r.is_selected = false ∧ r.status = "active" := by
    intro r h
    unfold promoteEligible at h
    simp only [Bool.and_eq_true, Bool.not_eq_true', beq_iff_eq, decide_eq_true_eq] at h
    exact ⟨h.1.1, h.1.2⟩
  have hklen : (promoteIds t (mn - count_selected_active t)).length =
      min (mn - count_selected_active t) ((t.filter promoteEligible).length) := by
    unfold promoteIds
    rw [List.length_map, chosen_length]
  have hcount : count_selected_active (manage_selected_servers t mn mx) =
      count_selected_active t +
        min (mn - count_selected_active t) ((t.filter promoteEligible).length) := by
    rw [heq]
    show ((t.map _).filter selActive).length = _
    rw [length_filter_map_comp]
    have hpt : t.filter (fun r =>
        selActive (if (promoteIds t (mn - count_selected_active t)).contains r.id then
          { r with is_selected := true } else r)) =
        t.filter (fun r =>
          (promoteIds t (mn - count_selected_active t)).contains r.id || selActive r) := by
      apply List.filter_congr
      intro r hr
      by_cases hc : (promoteIds t (mn - count_selected_active t)).contains r.id = true
      · rw [if_pos hc, hc]
        have helig := hchosen_elig r ((hcontains r hr).1 hc)
        have hact := (helig_parts r helig).2
        simp [selActive, hact]
      · have hcf : (promoteIds t (mn - count_selected_active t)).contains r.id = false :=
          Bool.eq_false_iff.2 hc
        rw [if_neg hc, hcf]
        simp
    rw [hpt]
    have hdisj : ∀ r ∈ t,
        ¬((promoteIds t (mn - count_selected_active t)).contains r.id = true ∧
          selActive r = true) := by
      rintro r hr ⟨hc, hsel⟩
      have helig := hchosen_elig r ((hcontains r hr).1 hc)
      have hunsel := (helig_parts r helig).1
      unfold selActive at hsel
      simp only [Bool.and_eq_true] at hsel
      rw [hunsel] at hsel
      exact Bool.noConfusion hsel.1
    have hor := length_filter_or_disjoint
      (fun r => (promoteIds t (mn - count_selected_active t)).contains r.id) selActive t hdisj
    rw [hor]
    have hsubids : ∀ i ∈ promoteIds t (mn - count_selected_active t),
        i ∈ t.map (fun r => r.id) := by
      intro i hi
      unfold promoteIds at hi
      rcases List.mem_map.1 hi with ⟨c, hc, rfl⟩
      exact List.mem_map_of_mem _
        (chosen_mem_and_pred promoteEligible t (mn - count_selected_active t) c hc).1
    have hcnt := length_filter_contains_ids t (promoteIds t (mn - count_selected_active t))
      hids (chosen_ids_nodup promoteEligible t (mn - count_selected_active t) hids) hsubids
    have hCdef : count_selected_active t = (t.filter selActive).length := rfl
    omega
  refine ⟨hcount, ?_, ?_⟩
  · rw [heq, List.forall₂_map_right_iff]
    refine List.forall₂_same.2 ?_
    intro r hr
    by_cases hc : (promoteIds t (mn - count_selected_active t)).contains r.id = true
    · rw [if_pos hc]
      exact Or.inr ⟨rfl, hchosen_elig r ((hcontains r hr).1 hc)⟩
    · rw [if_neg hc]
      exact Or.inl rfl
  · intro p hp q hq hpUnsel hpNew hqKeep hqElig
    rw [heq, zip_self_map] at hp hq
    rcases List.mem_map.1 hp with ⟨r, hrt, rfl⟩
    rcases List.mem_map.1 hq with ⟨s, hst, rfl⟩
    simp only at hpUnsel hpNew hqKeep hqElig
    have hrc : (promoteIds t (mn - count_selected_active t)).contains r.id = true := by
      by_contra hc
      rw [if_neg hc] at hpNew
      rw [hpUnsel] at hpNew
      cases hpNew
    have hrchosen := (hcontains r hrt).1 hrc
    have hsnot : s ∉ ((t.filter promoteEligible).insertionSort promoteRel).take
        (mn - count_selected_active t) := by
      intro hmem
      have hsc := (hcontains s hst).2 hmem
      rw [if_pos hsc] at hqKeep
      have hfield := congrArg ServerRow.is_selected hqKeep
      have hsunsel := (helig_parts s hqElig).1
      rw [hsunsel] at hfield
      cases hfield
    have hspool : s ∈ (t.filter promoteEligible).insertionSort promoteRel :=
      (List.perm_insertionSort promoteRel (t.filter promoteEligible)).mem_iff.2
        (List.mem_filter.2 ⟨hst, hqElig⟩)
    exact chosen_cross promoteEligible t (mn - count_selected_active t) r s
      hrchosen hspool hsnot

end PimxBot

namespace PimxBot

/-- C3: `rebalance(min_selected, max_selected)` with `C` = count of
selected-active rows: inside the band it changes nothing; above the band
it demotes exactly `C - max_selected` currently-selected-active rows
chosen worst-first (latency descending with null worst, then dislikes
descending, then `updated_at` ascending), leaving `max_selected` selected;
below the band it promotes up to `min_selected - C` not-yet-selected
active rows with latency below 250, chosen best-first (latency ascending,
then dislikes ascending, then `updated_at` descending), and touches
nothing else. -/
theorem manage_selected_servers_rebalance (t : List ServerRow) (mn mx : Nat)
    (hband : mn ≤ mx) (hids : (t.map (fun r => r.id)).Nodup) :
    (mn ≤ count_selected_active t ∧ count_selected_active t ≤ mx →
      manage_selected_servers t mn mx = t) ∧
    (mx < count_selected_active t →
      count_selected_active (manage_selected_servers t mn mx) = mx ∧
      List.Forall₂
        (fun r r2 => r2 = r ∨ (r2 = { r with is_selected := false } ∧ selActive r = true))
        t (manage_selected_servers t mn mx) ∧
      (∀ p ∈ t.zip (manage_selected_servers t mn mx),
       ∀ q ∈ t.zip (manage_selected_servers t mn mx),
         p.2.is_selected = false → selActive p.1 = true →
         q.2 = q.1 → selActive q.1 = true → demoteRel p.1 q.1)) ∧
    (count_selected_active t < mn →
      count_selected_active (manage_selected_servers t mn mx) =
        count_selected_active t +
          min (mn - count_selected_active t) ((t.filter promoteEligible).length) ∧
      List.Forall₂
        (fun r r2 => r2 = r ∨ (r2 = { r with is_selected := true } ∧ promoteEligible r = true))
        t (manage_selected_servers t mn mx) ∧
      (∀ p ∈ t.zip (manage_selected_servers t mn mx),
       ∀ q ∈ t.zip (manage_selected_servers t mn mx),
         p.1.is_selected = false → p.2.is_selected = true →
         q.2 = q.1 → promoteEligible q.1 = true → promoteRel p.1 q.1)) := by
  refine ⟨?_, ?_, ?_⟩
  · rintro ⟨h1, h2⟩
    simp only [manage_selected_servers]
    rw [if_neg (by omega), if_neg (by omega)]
  · intro hmx
    exact manage_demote_branch t mn mx hids hmx
  · intro hmn
    exact manage_promote_branch t mn mx hids (by omega) hmn

/-- Witness for `manage_selected_servers_rebalance`: the empty table with
the band `[0, 0]` is left unchanged. -/
theorem manage_selected_servers_rebalance_witness :
    manage_selected_servers [] 0 0 = [] := by
  have h := manage_selected_servers_rebalance [] 0 0 (Nat.le_refl 0) (by simp)
  exact h.1 ⟨Nat.le_refl 0, Nat.le_refl 0⟩

/-- An unselected active row with the given id and latency. -/
def activeRow (i : Int) (cfg : String) (lat : Nat) : ServerRow :=
  { id := i, config_string := cfg, protocol := "vless", transport := some "tcp"
    tls := some "", name := "n", address := "a", port := 443, host := some "a"
    path := some "/", country := some "US", latency := some lat, status := "active"
    quality_score := 85, reachable := true, scanned := true, source_id := some 1
    is_selected := false, dislikes := 0, created_at := 1, updated_at := 3 }

/-- Concrete run of the promotion branch on five unselected active rows
with latencies 50, 80, 120, 200 and 240 and the band `[3, 10]`: exactly
the three lowest-latency rows become selected. -/
theorem manage_selected_servers_promote_example :
    manage_selected_servers
      [activeRow 1 "a" 50, activeRow 2 "b" 80, activeRow 3 "c" 120,
       activeRow 4 "d" 200, activeRow 5 "e" 240] 3 10 =
      [{ activeRow 1 "a" 50 with is_selected := true },
       { activeRow 2 "b" 80 with is_selected := true },
       { activeRow 3 "c" 120 with is_selected := true },
       activeRow 4 "d" 200, activeRow 5 "e" 240] := by
  decide

end PimxBot

namespace PimxBot

/-- An eligible promotion candidate is unselected and active. -/
theorem promoteEligible_parts (r : ServerRow) (h : promoteEligible r = true) :
    r.is_selected = false ∧ r.status = "active" := by
  unfold promoteEligible at h
  simp only [Bool.and_eq_true, Bool.not_eq_true', beq_iff_eq, decide_eq_true_eq] at h
  exact ⟨h.1.1, h.1.2⟩

/-- A `Forall₂` chain lets every right-hand element be traced back to a
related left-hand element. -/
theorem forall₂_mem_right {α : Type} {P : α → α → Prop} :
    ∀ {l l2 : List α}, List.Forall₂ P l l2 → ∀ b ∈ l2, ∃ a ∈ l, P a b
  | _, _, .nil, b, hb => absurd hb (List.not_mem_nil b)
  | _, _, .cons hab hrest, b, hb => by
    rcases List.mem_cons.1 hb with rfl | hb2
    · exact ⟨_, List.mem_cons_self _ _, hab⟩
    · rcases forall₂_mem_right hrest b hb2 with ⟨a, ha, hP⟩
      exact ⟨a, List.mem_cons_of_mem _ ha, hP⟩

/-- The `test_server` outcome is either active-and-reachable or
timeout-and-unreachable. -/
theorem test_server_dichotomy (probe : Nat → ProbeResult) (m : Nat) :
    ((test_server probe m).status = "active" ∧ (test_server probe m).reachable = true) ∨
    ((test_server probe m).status = "timeout" ∧ (test_server probe m).reachable = false) := by
  unfold test_server
  by_cases h : (probe_best_of_two probe).1.ok = false ∨
      m < (probe_best_of_two probe).1.latency_ms
  · rw [if_pos h]
    exact Or.inr ⟨rfl, rfl⟩
  · rw [if_neg h]
    exact Or.inl ⟨rfl, rfl⟩

/-- The row written for a tested candidate satisfies the per-row
invariants, whichever way the test came out. -/
theorem worker_row_update_inv (r : ServerRow) (cfg : ParsedConfig)
    (probe : Nat → ProbeResult) (m : Nat) (c : Option String) (now : Nat) :
    RowInv (upsert_update_row r (worker_row cfg (test_server probe m) c) now) := by
  rcases test_server_dichotomy probe m with ⟨hs, hr⟩ | ⟨hs, hr⟩ <;>
    constructor <;>
      simp [upsert_update_row, worker_row, pyOrOSD, hs, hr]

/-- The row inserted for a tested candidate satisfies the per-row
invariants, whichever way the test came out. -/
theorem worker_row_insert_inv (cfg : ParsedConfig)
    (probe : Nat → ProbeResult) (m : Nat) (c : Option String) (now : Nat) (nid : Int) :
    RowInv (upsert_insert_row (worker_row cfg (test_server probe m) c) now nid) := by
  rcases test_server_dichotomy probe m with ⟨hs, hr⟩ | ⟨hs, hr⟩ <;>
    constructor <;>
      simp [upsert_insert_row, worker_row, pyOrOSD, hs, hr]

/-- C7: the pre-test reset of `is_selected`, the upsert of any tested
worker row, and the Selection Policy rebalance all preserve the store
invariants `is_selected = true → status = "active"` and
`reachable = true ↔ status = "active"`. -/
theorem pipeline_preserves_invariants (t : List ServerRow) (cfg : ParsedConfig)
    (probe : Nat → ProbeResult) (m : Nat) (c : Option String) (now : Nat) (nid : Int)
    (mn mx : Nat) (hInv : TableInv t) (hids : (t.map (fun r => r.id)).Nodup) :
    TableInv (resetSelected t) ∧
    TableInv (upsert_server t (worker_row cfg (test_server probe m) c) now nid) ∧
    TableInv (manage_selected_servers t mn mx) := by
  refine ⟨?_, ?_, ?_⟩
  · intro r2 h2
    unfold resetSelected at h2
    rcases List.mem_map.1 h2 with ⟨r, hr, rfl⟩
    constructor
    · intro hsel
      cases hsel
    · exact (hInv r hr).2
  · intro r2 h2
    unfold upsert_server at h2
    by_cases hany : t.any (fun r =>
        r.config_string == (worker_row cfg (test_server probe m) c).config_string) = true
    · rw [if_pos hany] at h2
      rcases List.mem_map.1 h2 with ⟨r, hr, rfl⟩
      by_cases hfp : r.config_string = (worker_row cfg (test_server probe m) c).config_string
      · rw [if_pos hfp]
        exact worker_row_update_inv r cfg probe m c now
      · rw [if_neg hfp]
        exact hInv r hr
    · rw [if_neg hany] at h2
      rcases List.mem_append.1 h2 with hr | hr
      · exact hInv r2 hr
      · rcases List.mem_singleton.1 hr with rfl
        exact worker_row_insert_inv cfg probe m c now nid
  · intro r2 h2
    by_cases hmx : mx < count_selected_active t
    · have hfa := (manage_demote_branch t mn mx hids hmx).2.1
      rcases forall₂_mem_right hfa r2 h2 with ⟨r, hr, hrel⟩
      rcases hrel with rfl | ⟨rfl, hsel⟩
      · exact hInv _ hr
      · constructor
        · intro hselF
          cases hselF
        · exact (hInv r hr).2
    · by_cases hmn : count_selected_active t < mn
      · have hfa := (manage_promote_branch t mn mx hids hmx hmn).2.1
        rcases forall₂_mem_right hfa r2 h2 with ⟨r, hr, hrel⟩
        rcases hrel with rfl | ⟨rfl, helig⟩
        · exact hInv _ hr
        · have hact := (promoteEligible_parts r helig).2
          constructor
          · intro _
            exact hact
          · rw [show ({ r with is_selected := true } : ServerRow).reachable = r.reachable
              from rfl, show ({ r with is_selected := true } : ServerRow).status = r.status
              from rfl]
            exact (hInv r hr).2
      · have heq : manage_selected_servers t mn mx = t := by
          simp only [manage_selected_servers]
          rw [if_neg hmx, if_neg hmn]
        rw [heq] at h2
        exact hInv r2 h2

/-- A concrete candidate configuration. -/
def demoCfg : ParsedConfig :=
  { original_string := "vless://a", protocol := "vless", transport := "tcp", ps := "n"
    add := "a", port := 443, host := "", path := "", tls := "", source_id := some 1 }

/-- Witness for `pipeline_preserves_invariants` at the empty table and a
probe that succeeds with latency 100. -/
theorem pipeline_preserves_invariants_witness :
    TableInv (resetSelected []) ∧
    TableInv (upsert_server [] (worker_row demoCfg (test_server demoOkProbe 100) none) 1 1) ∧
    TableInv (manage_selected_servers [] 0 0) := by
  have h := pipeline_preserves_invariants [] demoCfg demoOkProbe 100 none 1 1 0 0
    (by intro r hr; cases hr) (by simp)
  exact h

end PimxBot
